import Mathlib

/-!
Shallow embedding of the pdf-images service (`src/main.rs`): a request
pipeline that rasterizes pages of an uploaded PDF, names each page image by a
content fingerprint, and uploads the images concurrently to an object store.

External collaborators (pdfium, the blake3 hash, the S3 client, the tokio
scheduler) appear as explicit function parameters of the embedded pipeline;
everything else is translated directly from the source.
-/

deriving instance DecidableEq for Except

namespace PdfImages

/-- The `AppError` enum of `src/main.rs` (lines 425-443).  External error
payloads are reduced to what the pipeline itself inspects: nothing for the
pdfium, multipart and join errors, and the object key of the failed PUT for
the S3 error. -/
inductive AppError where
  | Pdfium : AppError
  | Multipart : AppError
  | FieldNotFound : AppError
  | Task : AppError
  | S3 : String → AppError
  | Unauthorized : AppError
  | InvalidPageRange : String → AppError
  | InvalidScale : String → AppError
  deriving DecidableEq, Repr

/-- Status codes assigned by `impl IntoResponse for AppError`
(`into_response`, src/main.rs lines 449-488). -/
def AppError.statusCode : AppError → ℕ
  | .Pdfium => 500
  | .Multipart => 400
  | .FieldNotFound => 400
  | .Task => 500
  | .S3 _ => 500
  | .Unauthorized => 401
  | .InvalidPageRange _ => 400
  | .InvalidScale _ => 400

/-- The `OutputFormat` enum (src/main.rs lines 23-43). -/
inductive OutputFormat where
  | Png | Jpeg | Gif | WebP | Pnm | Tiff | Tga | Bmp | Ico | Hdr
  | OpenExr | Farbfeld | Avif | Qoi
  deriving DecidableEq, Repr

/-- The `image::ImageFormat` variants targeted by `OutputFormat::as_image_format`. -/
inductive ImageFormat where
  | Png | Jpeg | Gif | WebP | Pnm | Tiff | Tga | Bmp | Ico | Hdr
  | OpenExr | Farbfeld | Avif | Qoi
  deriving DecidableEq, Repr

/-- `OutputFormat::as_image_format` (src/main.rs lines 46-63). -/
def OutputFormat.as_image_format : OutputFormat → ImageFormat
  | .Png => .Png
  | .Jpeg => .Jpeg
  | .Gif => .Gif
  | .WebP => .WebP
  | .Pnm => .Pnm
  | .Tiff => .Tiff
  | .Tga => .Tga
  | .Bmp => .Bmp
  | .Ico => .Ico
  | .Hdr => .Hdr
  | .OpenExr => .OpenExr
  | .Farbfeld => .Farbfeld
  | .Avif => .Avif
  | .Qoi => .Qoi

/-- `OutputFormat::extension` (src/main.rs lines 65-82). -/
def OutputFormat.extension : OutputFormat → String
  | .Png => "png"
  | .Jpeg => "jpg"
  | .Gif => "gif"
  | .WebP => "webp"
  | .Pnm => "pnm"
  | .Tiff => "tiff"
  | .Tga => "tga"
  | .Bmp => "bmp"
  | .Ico => "ico"
  | .Hdr => "hdr"
  | .OpenExr => "exr"
  | .Farbfeld => "ff"
  | .Avif => "avif"
  | .Qoi => "qoi"

/-- The Unicode White_Space property, which Rust `str::trim` strips. -/
def isRustWhitespace (c : Char) : Bool :=
  let n := c.toNat
  decide ((0x9 ≤ n ∧ n ≤ 0xD) ∨ n = 0x20 ∨ n = 0x85 ∨ n = 0xA0 ∨ n = 0x1680 ∨
    (0x2000 ≤ n ∧ n ≤ 0x200A) ∨ n = 0x2028 ∨ n = 0x2029 ∨ n = 0x202F ∨
    n = 0x205F ∨ n = 0x3000)

/-- Rust `str::trim`: strip leading and trailing whitespace. -/
def rustTrim (s : String) : String :=
  ⟨((s.data.dropWhile isRustWhitespace).reverse.dropWhile isRustWhitespace).reverse⟩

/-- Rust `usize::from_str` as used by `"...".parse::<usize>()`: an optional
leading plus sign followed by one or more ASCII digits; anything else, an
empty digit string, or overflow past `usize::MAX` (64-bit) fails. -/
def parseUsize (s : String) : Option ℕ :=
  let cs := match s.data with
    | '+' :: rest => rest
    | cs => cs
  if cs = [] then none
  else if cs.all (fun c => c.isDigit) then
    let v := cs.foldl (fun a c => a * 10 + (c.toNat - 48)) 0
    if v < 2 ^ 64 then some v else none
  else none

/-- Rust `str::split(',')` on the character list: the list of (possibly
empty) chunks between commas.  `"".split(',')` yields one empty chunk. -/
def splitComma : List Char → List (List Char)
  | [] => [[]]
  | c :: rest =>
    if c = ',' then [] :: splitComma rest
    else
      match splitComma rest with
      | [] => [[c]]
      | g :: gs => (c :: g) :: gs

/-- Rust `str::split_once('-')`: split at the first hyphen, if any. -/
def splitOnceDash (s : String) : Option (String × String) :=
  match s.data.span (fun c => c ≠ '-') with
  | (_, []) => none
  | (before, _ :: after) => some (⟨before⟩, ⟨after⟩)

/-- A parsed page selection: the `PageSelection(HashSet<usize>)` newtype of
src/main.rs line 85, as a finite set of zero-indexed page numbers. -/
abbrev PageSelection := Finset ℕ

/-- The body of the token loop of `PageSelection::from_str`
(src/main.rs lines 118-156), for one trimmed, nonempty token: a range token
`A-B` (split at the first hyphen) contributes the zero-indexed interval
`[A-1, B)`, a single token `N` contributes `{N-1}`. -/
def tokenResult (part : String) : Except AppError PageSelection :=
  match splitOnceDash part with
  | some (s0, e0) =>
    match parseUsize (rustTrim s0) with
    | none => .error (.InvalidPageRange ("invalid number: " ++ s0))
    | some s =>
      match parseUsize (rustTrim e0) with
      | none => .error (.InvalidPageRange ("invalid number: " ++ e0))
      | some e =>
        if s = 0 ∨ e = 0 then
          .error (.InvalidPageRange "page numbers must be 1 or greater")
        else if s > e then
          .error (.InvalidPageRange ("invalid range: start (" ++ toString s ++
            ") > end (" ++ toString e ++ ")"))
        else
          .ok (Finset.Ico (s - 1) e)
  | none =>
    match parseUsize part with
    | none => .error (.InvalidPageRange ("invalid number: " ++ part))
    | some p =>
      if p = 0 then
        .error (.InvalidPageRange "page numbers must be 1 or greater")
      else
        .ok {p - 1}

/-- The token loop of `PageSelection::from_str` (src/main.rs lines 112-157):
fold over the comma-separated parts, trimming each, skipping empties, and
accumulating the pages contributed by each valid token. -/
def parseParts : PageSelection → List String → Except AppError PageSelection
  | pages, [] => .ok pages
  | pages, part0 :: rest =>
    let part := rustTrim part0
    if part = "" then parseParts pages rest
    else
      match tokenResult part with
      | .error e => .error e
      | .ok ts => parseParts (pages ∪ ts) rest

/-- `PageSelection::from_str` (src/main.rs lines 109-166). -/
def PageSelection.from_str (input : String) : Except AppError PageSelection :=
  match parseParts ∅ ((splitComma input.data).map fun l => ⟨l⟩) with
  | .error e => .error e
  | .ok pages =>
    if pages = ∅ then .error (.InvalidPageRange "no valid pages specified")
    else .ok pages

/-- `PageSelection::validate` (src/main.rs lines 92-103): once the document
page count is known, the largest selected index must be below it. -/
def PageSelection.validate (s : PageSelection) (total_pages : ℕ) :
    Except AppError Unit :=
  if h : s.Nonempty then
    let max_page := s.max' h
    if total_pages ≤ max_page then
      .error (.InvalidPageRange ("page " ++ toString (max_page + 1) ++
        " is out of range (document has " ++ toString total_pages ++ " pages)"))
    else .ok ()
  else .ok ()

/-- The query parameters of `POST /` (`UploadQuery`, src/main.rs lines
169-176).  The `scale` float is modelled as an exact rational; the inclusive
range check below mirrors `(0.1..=10.0).contains(&scale)`. -/
structure UploadQuery where
  format : OutputFormat
  token : Option String
  pages : Option String
  scale : Option ℚ

/-- The pdfium render configuration: `PdfRenderConfig::new()` optionally
followed by `.scale_page_by_factor(scale)`. -/
structure PdfRenderConfig where
  scaleFactor : Option ℚ
  deriving DecidableEq

def PdfRenderConfig.new : PdfRenderConfig := ⟨none⟩

def PdfRenderConfig.scale_page_by_factor (c : PdfRenderConfig) (s : ℚ) :
    PdfRenderConfig :=
  { c with scaleFactor := some s }

/-- A rendered page image (`PdfImage`, src/main.rs lines 247-250): the object
key and the encoded bytes. -/
structure PdfImage where
  name : String
  stream : List ℕ
  deriving DecidableEq, Repr

/-- `query.pages.map(|p| p.parse()).transpose()` (src/main.rs line 271). -/
def transposeParse :
    Option (Except AppError PageSelection) →
      Except AppError (Option PageSelection)
  | none => .ok none
  | some (.error e) => .error e
  | some (.ok s) => .ok (some s)

/-- The scale guard of `process_pdf` (src/main.rs lines 276-282):
`if let Some(scale) = query.scale && !(0.1..=10.0).contains(&scale)`.
The bounds of the inclusive range are the exact rationals 1/10 and 10,
written with `mkRat` because the decimal-literal constructors of `ℚ` are
irreducible and would block evaluation. -/
def scaleGuard (scale : Option ℚ) : Except AppError Unit :=
  match scale with
  | some s =>
    if ¬ (mkRat 1 10 ≤ s ∧ s ≤ 10) then
      .error (.InvalidScale "scale must be between 0.1 and 10.0")
    else .ok ()
  | none => .ok ()

/-- The render configuration built by `process_pdf` (src/main.rs lines
284-287): `PdfRenderConfig::new().scale_page_by_factor(scale)` when a scale
was supplied, the native `PdfRenderConfig::new()` otherwise. -/
def renderConfigOf : Option ℚ → PdfRenderConfig
  | some scale => PdfRenderConfig.new.scale_page_by_factor scale
  | none => PdfRenderConfig.new

/-- The page iteration of `process_pdf` (src/main.rs lines 293-319):
enumerate all pages, keep those in the selection (all pages when no selection
was supplied), render and encode each kept page — a page whose render or
encode fails is dropped (`flat_map` over `Option`) — and name each produced
image `"{id}-{idx}.{ext}"`. -/
def renderPages (renderEncode : PdfRenderConfig → ImageFormat → ℕ → Option (List ℕ))
    (render_config : PdfRenderConfig) (image_format : ImageFormat)
    (id : String) (ext : String) (total_pages : ℕ)
    (page_selection : Option PageSelection) : List PdfImage :=
  ((List.range total_pages).filter fun idx =>
      match page_selection with
      | some ps => decide (idx ∈ ps)
      | none => true).filterMap fun idx =>
    (renderEncode render_config image_format idx).map fun data =>
      { name := id ++ "-" ++ toString idx ++ "." ++ ext, stream := data }

/-- `process_pdf` (src/main.rs lines 252-322), from document load onward.
External collaborators are parameters:
* `hashHex` models `blake3::hash(bytes).to_hex().to_string()` — it is applied
  to the raw uploaded bytes only;
* `load` models pdfium `load_pdf_from_byte_slice`, returning the page count of
  a successfully loaded document and `none` on load failure;
* `renderEncode` models `page.render_with_config(..)` followed by
  `.as_image().write_to(.., image_format)`: given the render configuration,
  the target image format and a page index it returns the encoded bytes, or
  `none` when rendering or encoding fails.
Acquisition of the pdfium library bindings (src/main.rs lines 253-267) is
process-environment handling preceding everything modelled here.  The stage
order is that of the source: document load, then page-expression parse, then
selection validation, then the scale guard, then rendering. -/
def process_pdf (hashHex : List ℕ → String) (load : List ℕ → Option ℕ)
    (renderEncode : PdfRenderConfig → ImageFormat → ℕ → Option (List ℕ))
    (bytes : List ℕ) (query : UploadQuery) : Except AppError (List PdfImage) :=
  match load bytes with
  | none => .error .Pdfium
  | some total_pages =>
    match transposeParse (query.pages.map PageSelection.from_str) with
    | .error e => .error e
    | .ok page_selection =>
      match (match page_selection with
             | some ps => ps.validate total_pages
             | none => .ok ()) with
      | .error e => .error e
      | .ok _ =>
        match scaleGuard query.scale with
        | .error e => .error e
        | .ok _ =>
          let render_config := renderConfigOf query.scale
          let id := hashHex bytes
          let ext := query.format.extension
          let image_format := query.format.as_image_format
          .ok (renderPages renderEncode render_config image_format id ext
            total_pages page_selection)

/-- The object store contents: an association list from object key to stored
bytes, newest entry first. -/
abbrev Store := List (String × List ℕ)

/-- Retrieval from the store (for stating persistence facts). -/
def Store.get (store : Store) (key : String) : Option (List ℕ) :=
  (store.find? fun kv => kv.1 == key).map fun kv => kv.2

/-- A successful `PutObject`: stores the bytes under the key, overwriting any
existing object with the same key. -/
def Store.put (store : Store) (image : PdfImage) : Store :=
  (image.name, image.stream) :: store.filter fun kv => kv.1 != image.name

/-- `ObjectStorage::put_image` (src/main.rs lines 233-244).  The external
store is modelled by `fault`: `fault key = true` means the PUT for that key
fails with an SDK error.  On success the object is persisted and the object
key is returned. -/
def put_image (fault : String → Bool) (store : Store) (image : PdfImage) :
    Store × Except AppError String :=
  if fault image.name then (store, .error (.S3 image.name))
  else (store.put image, .ok image.name)

/-- The upload fan-out of `handle_pdf_upload` (src/main.rs lines 391-397):
one independent `put_image` task per image.  Every task runs to completion —
a failing task neither cancels the others nor prevents their effect on the
store — so the outcomes are computed image by image, threading the store. -/
def uploadAll (fault : String → Bool) (store : Store) :
    List PdfImage → Store × List (Except AppError String)
  | [] => (store, [])
  | image :: rest =>
    let r := put_image fault store image
    let rs := uploadAll fault r.1 rest
    (rs.1, r.2 :: rs.2)

/-- tokio `JoinSet::join_all` (src/main.rs lines 398-400) returns one result
per spawned task in the order the tasks happened to complete, which is some
permutation of spawn order.  `order` lists spawn-order positions in
completion order; theorems quantify over every `order` that is a permutation
of `List.range n`. -/
def completionReorder (order : List ℕ) (results : List α) : List α :=
  order.filterMap fun i => results.get? i

/-- `into_iter().collect::<Result<Vec<_>, _>>()` (src/main.rs lines 398-402):
all values when every result is ok, otherwise the first error. -/
def collectResults : List (Except AppError String) → Except AppError (List String)
  | [] => .ok []
  | .error e :: _ => .error e
  | .ok k :: rest =>
    match collectResults rest with
    | .error e => .error e
    | .ok ks => .ok (k :: ks)

/-- The success body `UploadResponse` (src/main.rs lines 410-414). -/
structure UploadResponse where
  success : Bool
  images : List String
  deriving DecidableEq, Repr

/-- The stages of `handle_pdf_upload` after the access gate (src/main.rs
lines 383-407): extract the first multipart field (`field = none` models a
form with no field), process the document, fan out the uploads, wait for all
of them, and collect.  Returns the final store contents and the result. -/
def handleAfterGate (hashHex : List ℕ → String) (load : List ℕ → Option ℕ)
    (renderEncode : PdfRenderConfig → ImageFormat → ℕ → Option (List ℕ))
    (fault : String → Bool) (order : List ℕ) (store : Store)
    (query : UploadQuery) (field : Option (List ℕ)) :
    Store × Except AppError UploadResponse :=
  match field with
  | none => (store, .error .FieldNotFound)
  | some data =>
    match process_pdf hashHex load renderEncode data query with
    | .error e => (store, .error e)
    | .ok images =>
      let up := uploadAll fault store images
      match collectResults (completionReorder order up.2) with
      | .error e => (up.1, .error e)
      | .ok keys => (up.1, .ok { success := true, images := keys })

/-- `handle_pdf_upload` (src/main.rs lines 370-408).  `secret` is the
configured `state.token`; the gate (lines 375-381) runs before the multipart
field is touched. -/
def handle_pdf_upload (hashHex : List ℕ → String) (load : List ℕ → Option ℕ)
    (renderEncode : PdfRenderConfig → ImageFormat → ℕ → Option (List ℕ))
    (fault : String → Bool) (order : List ℕ) (secret : Option String)
    (store : Store) (query : UploadQuery) (field : Option (List ℕ)) :
    Store × Except AppError UploadResponse :=
  match secret with
  | some expected_token =>
    match query.token with
    | some provided_token =>
      if provided_token = expected_token then
        handleAfterGate hashHex load renderEncode fault order store query field
      else (store, .error .Unauthorized)
    | none => (store, .error .Unauthorized)
  | none => handleAfterGate hashHex load renderEncode fault order store query field

/-! ## The pages grammar as the spec states it

A second definition of the pages parser, written after the words of §4.2 of
the spec (with the error messages the code actually emits): the tokens are
the comma-separated chunks with surrounding whitespace ignored and empty
tokens skipped; a token `N` with `N ≥ 1` contributes the zero-indexed page
`N-1`; a token `A-B` with `1 ≤ A ≤ B` contributes the zero-indexed pages
`A-1` through `B-1` inclusive; the contributions are unioned into one set;
an empty union fails.  Claim C2 is settled by comparing this definition with
`PageSelection.from_str` above. -/

/-- The token list of a pages expression per §4.2: split on commas, trim,
skip empties. -/
def specTokens (input : String) : List String :=
  (((splitComma input.data).map fun l => (⟨l⟩ : String)).map rustTrim).filter
    fun t => !(t == "")

/-- The value of one (trimmed, nonempty) token per §4.2: `N` with `N ≥ 1` is
page `N-1`; `A-B` with `1 ≤ A ≤ B` is pages `A-1` through `B-1` inclusive;
anything else is an `InvalidPageRange` error. -/
def specTokenVal (t : String) : Except AppError PageSelection :=
  match splitOnceDash t with
  | none =>
    match parseUsize t with
    | some n =>
      if 1 ≤ n then .ok {n - 1}
      else .error (.InvalidPageRange "page numbers must be 1 or greater")
    | none => .error (.InvalidPageRange ("invalid number: " ++ t))
  | some (a, b) =>
    match parseUsize (rustTrim a), parseUsize (rustTrim b) with
    | some x, some y =>
      if 1 ≤ x ∧ x ≤ y then .ok (Finset.Icc (x - 1) (y - 1))
      else if x = 0 ∨ y = 0 then
        .error (.InvalidPageRange "page numbers must be 1 or greater")
      else
        .error (.InvalidPageRange ("invalid range: start (" ++ toString x ++
          ") > end (" ++ toString y ++ ")"))
    | none, _ => .error (.InvalidPageRange ("invalid number: " ++ a))
    | some _, none => .error (.InvalidPageRange ("invalid number: " ++ b))

/-- The pages parser per §4.2: map every token to its contribution, union,
and fail on an empty union with `"no valid pages specified"`. -/
def specPageParse (input : String) : Except AppError PageSelection :=
  match (specTokens input).mapM specTokenVal with
  | .error e => .error e
  | .ok sets =>
    let pages := sets.foldl (· ∪ ·) ∅
    if pages = ∅ then .error (.InvalidPageRange "no valid pages specified")
    else .ok pages

/-! ## Parser lemmas -/

theorem tokenResult_eq_specTokenVal (t : String) : tokenResult t = specTokenVal t := by
  unfold tokenResult specTokenVal
  cases hsplit : splitOnceDash t with
  | none =>
    cases hp : parseUsize t with
    | none => simp
    | some p => by_cases hz : p = 0 <;> simp [hz, Nat.one_le_iff_ne_zero]
  | some ab =>
    obtain ⟨a, b⟩ := ab
    cases ha : parseUsize (rustTrim a) with
    | none => simp [ha]
    | some x =>
      cases hb : parseUsize (rustTrim b) with
      | none => simp [ha, hb]
      | some y =>
        simp only [ha, hb]
        split_ifs with h1 h2 h3 h4 h5 <;>
          first
            | rfl
            | omega
            | (refine congrArg Except.ok ?_
               ext k
               simp only [Finset.mem_Ico, Finset.mem_Icc]
               omega)

theorem parseParts_eq (parts : List String) (acc : PageSelection) :
    parseParts acc parts =
      match ((parts.map rustTrim).filter fun t => !(t == "")).mapM specTokenVal with
      | .error e => .error e
      | .ok sets => .ok (sets.foldl (· ∪ ·) acc) := by
  induction parts generalizing acc with
  | nil => rfl
  | cons p rest ih =>
    have hfilter : ∀ _ : ¬ rustTrim p = "",
        ((p :: rest).map rustTrim).filter (fun t => !(t == "")) =
          rustTrim p :: (rest.map rustTrim).filter (fun t => !(t == "")) := by
      intro h
      simp [List.filter_cons, h]
    by_cases hp : rustTrim p = ""
    · simpa [parseParts, hp] using ih acc
    · rw [show parseParts acc (p :: rest) =
          (match tokenResult (rustTrim p) with
           | .error e => .error e
           | .ok ts => parseParts (acc ∪ ts) rest) by
        simp [parseParts, hp]]
      rw [hfilter hp, List.mapM_cons, tokenResult_eq_specTokenVal]
      cases hs : specTokenVal (rustTrim p) with
      | error e => rfl
      | ok ts =>
        have lhs : (match Except.ok ts with
            | Except.error e => (Except.error e : Except AppError PageSelection)
            | Except.ok ts => parseParts (acc ∪ ts) rest) =
            parseParts (acc ∪ ts) rest := rfl
      
        rw [lhs, ih (acc ∪ ts)]
        cases hrest : ((rest.map rustTrim).filter (fun t => !(t == ""))).mapM specTokenVal with
        | error e => rfl
        | ok sets => rfl

theorem specTokenVal_error {t : String} {e : AppError}
    (h : specTokenVal t = .error e) : ∃ m, e = .InvalidPageRange m := by
  unfold specTokenVal at h
  cases hsplit : splitOnceDash t with
  | none =>
    simp only [hsplit] at h
    cases hp : parseUsize t with
    | none =>
      simp only [hp] at h
      cases h
      exact ⟨_, rfl⟩
    | some n =>
      simp only [hp] at h
      split_ifs at h with h1 <;> cases h <;> exact ⟨_, rfl⟩
  | some ab =>
    obtain ⟨a, b⟩ := ab
    simp only [hsplit] at h
    cases ha : parseUsize (rustTrim a) with
    | none =>
      simp only [ha] at h
      cases h
      exact ⟨_, rfl⟩
    | some x =>
      cases hb : parseUsize (rustTrim b) with
      | none =>
        simp only [ha, hb] at h
        cases h
        exact ⟨_, rfl⟩
      | some y =>
        simp only [ha, hb] at h
        split_ifs at h with h1 h2 <;> cases h <;> exact ⟨_, rfl⟩

theorem mapM_specTokenVal_error {l : List String} {e : AppError}
    (h : l.mapM specTokenVal = .error e) : ∃ m, e = .InvalidPageRange m := by
  induction l with
  | nil => cases h
  | cons t rest ih =>
    rw [List.mapM_cons] at h
    cases hs : specTokenVal t with
    | error e2 =>
      rw [hs] at h
      cases h
      exact specTokenVal_error hs
    | ok ts =>
      rw [hs] at h
      cases hrest : rest.mapM specTokenVal with
      | error e2 =>
        rw [hrest] at h
        cases h
        exact ih hrest
      | ok sets =>
        rw [hrest] at h
        cases h

theorem from_str_error {input : String} {e : AppError}
    (h : PageSelection.from_str input = .error e) : ∃ m, e = .InvalidPageRange m := by
  unfold PageSelection.from_str at h
  rw [parseParts_eq] at h
  cases hm : (((((splitComma input.data).map fun l => (⟨l⟩ : String))).map rustTrim).filter
      fun t => !(t == "")).mapM specTokenVal with
  | error e2 =>
    rw [hm] at h
    cases h
    exact mapM_specTokenVal_error hm
  | ok sets =>
    rw [hm] at h
    by_cases hz : sets.foldl (· ∪ ·) (∅ : PageSelection) = ∅
    · simp only [hz, if_pos] at h
      cases h
      exact ⟨_, rfl⟩
    · simp only [hz, if_neg, not_false_iff] at h
      cases h

/-! ## Validation and scale-guard lemmas -/

theorem validate_ok_iff (s : PageSelection) (total : ℕ) :
    PageSelection.validate s total = .ok () ↔ ∀ p ∈ s, p < total := by
  unfold PageSelection.validate
  by_cases h : s.Nonempty
  · rw [dif_pos h]
    by_cases hle : total ≤ s.max' h
    · rw [if_pos hle]
      constructor
      · intro habs
        cases habs
      · intro hall
        have := hall (s.max' h) (s.max'_mem h)
        omega
    · rw [if_neg hle]
      constructor
      · intro _ p hp
        have := Finset.le_max' s p hp
        omega
      · intro _
        rfl
  · rw [dif_neg h]
    constructor
    · intro _ p hp
      exact absurd ⟨p, hp⟩ h
    · intro _
      rfl

theorem validate_error_shape {s : PageSelection} {total : ℕ} {e : AppError}
    (h : PageSelection.validate s total = .error e) :
    ∃ m, e = .InvalidPageRange m := by
  unfold PageSelection.validate at h
  by_cases hne : s.Nonempty
  · rw [dif_pos hne] at h
    by_cases hle : total ≤ s.max' hne
    · rw [if_pos hle] at h
      cases h
      exact ⟨_, rfl⟩
    · rw [if_neg hle] at h
      cases h
  · rw [dif_neg hne] at h
    cases h

theorem validate_error_iff (s : PageSelection) (total : ℕ) :
    (∃ m, PageSelection.validate s total = .error (.InvalidPageRange m)) ↔
      ∃ p ∈ s, total ≤ p := by
  constructor
  · intro ⟨m, hm⟩
    by_contra hno
    push_neg at hno
    have hok : PageSelection.validate s total = .ok () :=
      (validate_ok_iff s total).mpr fun p hp => hno p hp
    rw [hok] at hm
    cases hm
  · intro ⟨p, hp, hple⟩
    cases hv : PageSelection.validate s total with
    | error e =>
      obtain ⟨m, hm⟩ := validate_error_shape hv
      refine ⟨m, ?_⟩
      rw [← hm]
    | ok u =>
      cases u
      have := (validate_ok_iff s total).mp hv p hp
      omega

theorem scaleGuard_some_ok_iff (s : ℚ) :
    scaleGuard (some s) = .ok () ↔ (mkRat 1 10 ≤ s ∧ s ≤ 10) := by
  unfold scaleGuard
  by_cases h : mkRat 1 10 ≤ s ∧ s ≤ 10
  · simp [h]
  · simp [h]

theorem scaleGuard_some_error_iff (s : ℚ) :
    scaleGuard (some s) =
        .error (.InvalidScale "scale must be between 0.1 and 10.0") ↔
      ¬ (mkRat 1 10 ≤ s ∧ s ≤ 10) := by
  unfold scaleGuard
  by_cases h : mkRat 1 10 ≤ s ∧ s ≤ 10
  · simp [h]
  · simp [h]

theorem scaleGuard_error_shape {o : Option ℚ} {e : AppError}
    (h : scaleGuard o = .error e) :
    e = .InvalidScale "scale must be between 0.1 and 10.0" := by
  unfold scaleGuard at h
  cases o with
  | none => cases h
  | some s =>
    have h2 : (if ¬ (mkRat 1 10 ≤ s ∧ s ≤ 10) then
        (Except.error (.InvalidScale "scale must be between 0.1 and 10.0") :
          Except AppError Unit)
      else .ok ()) = .error e := h
    by_cases hr : mkRat 1 10 ≤ s ∧ s ≤ 10
    · rw [if_neg (not_not_intro hr)] at h2
      cases h2
    · rw [if_pos hr] at h2
      cases h2
      rfl

/-! ## Shape lemmas for `process_pdf` -/

theorem transposeParse_error_shape {o : Option String} {e : AppError}
    (h : transposeParse (o.map PageSelection.from_str) = .error e) :
    ∃ m, e = .InvalidPageRange m := by
  cases o with
  | none => cases h
  | some input =>
    cases hp : PageSelection.from_str input with
    | error e2 =>
      rw [Option.map_some', hp] at h
      cases h
      exact from_str_error hp
    | ok sel =>
      rw [Option.map_some', hp] at h
      cases h

theorem process_pdf_eq_ok (hashHex : List ℕ → String) (load : List ℕ → Option ℕ)
    (renderEncode : PdfRenderConfig → ImageFormat → ℕ → Option (List ℕ))
    (bytes : List ℕ) (query : UploadQuery) (total : ℕ)
    (psel : Option PageSelection)
    (hload : load bytes = some total)
    (hparse : transposeParse (query.pages.map PageSelection.from_str) = .ok psel)
    (hval : (match psel with
             | some ps => ps.validate total
             | none => .ok ()) = .ok ())
    (hscale : scaleGuard query.scale = .ok ()) :
    process_pdf hashHex load renderEncode bytes query =
      .ok (renderPages renderEncode (renderConfigOf query.scale)
        query.format.as_image_format (hashHex bytes) query.format.extension
        total psel) := by
  unfold process_pdf
  simp only [hload, hparse, hval, hscale]

theorem process_pdf_ok_inv {hashHex : List ℕ → String} {load : List ℕ → Option ℕ}
    {renderEncode : PdfRenderConfig → ImageFormat → ℕ → Option (List ℕ)}
    {bytes : List ℕ} {query : UploadQuery} {imgs : List PdfImage}
    (h : process_pdf hashHex load renderEncode bytes query = .ok imgs) :
    ∃ total psel, load bytes = some total ∧
      transposeParse (query.pages.map PageSelection.from_str) = .ok psel ∧
      imgs = renderPages renderEncode (renderConfigOf query.scale)
        query.format.as_image_format (hashHex bytes) query.format.extension
        total psel := by
  unfold process_pdf at h
  cases hload : load bytes with
  | none =>
    rw [hload] at h
    cases h
  | some total =>
    simp only [hload] at h
    cases hparse : transposeParse (query.pages.map PageSelection.from_str) with
    | error e =>
      simp only [hparse] at h
      cases h
    | ok psel =>
      simp only [hparse] at h
      cases hval : (match psel with
                    | some ps => ps.validate total
                    | none => .ok ()) with
      | error e =>
        simp only [hval] at h
        cases h
      | ok u =>
        cases u
        simp only [hval] at h
        cases hscale : scaleGuard query.scale with
        | error e =>
          simp only [hscale] at h
          cases h
        | ok v =>
          cases v
          simp only [hscale] at h
          cases h
          exact ⟨total, psel, rfl, rfl, rfl⟩

theorem process_pdf_error_shape {hashHex : List ℕ → String}
    {load : List ℕ → Option ℕ}
    {renderEncode : PdfRenderConfig → ImageFormat → ℕ → Option (List ℕ)}
    {bytes : List ℕ} {query : UploadQuery} {e : AppError}
    (h : process_pdf hashHex load renderEncode bytes query = .error e) :
    e = .Pdfium ∨ (∃ m, e = .InvalidPageRange m) ∨ (∃ m, e = .InvalidScale m) := by
  unfold process_pdf at h
  cases hload : load bytes with
  | none =>
    rw [hload] at h
    cases h
    exact Or.inl rfl
  | some total =>
    simp only [hload] at h
    cases hparse : transposeParse (query.pages.map PageSelection.from_str) with
    | error e2 =>
      simp only [hparse] at h
      cases h
      exact Or.inr (Or.inl (transposeParse_error_shape hparse))
    | ok psel =>
      simp only [hparse] at h
      cases hval : (match psel with
                    | some ps => ps.validate total
                    | none => .ok ()) with
      | error e2 =>
        simp only [hval] at h
        cases h
        refine Or.inr (Or.inl ?_)
        cases psel with
        | none => cases hval
        | some ps => exact validate_error_shape hval
      | ok u =>
        cases u
        simp only [hval] at h
        cases hscale : scaleGuard query.scale with
        | error e2 =>
          simp only [hscale] at h
          cases h
          exact Or.inr (Or.inr ⟨_, scaleGuard_error_shape hscale⟩)
        | ok v =>
          cases v
          simp only [hscale] at h
          cases h

/-! ## Rendering lemmas -/

theorem renderPages_name_mem {renderEncode : PdfRenderConfig → ImageFormat → ℕ → Option (List ℕ)}
    {cfg : PdfRenderConfig} {fmt : ImageFormat} {id ext : String} {total : ℕ}
    {psel : Option PageSelection} {img : PdfImage}
    (h : img ∈ renderPages renderEncode cfg fmt id ext total psel) :
    ∃ idx, idx < total ∧ img.name = id ++ "-" ++ toString idx ++ "." ++ ext := by
  unfold renderPages at h
  obtain ⟨idx, hidx, hmap⟩ := List.mem_filterMap.mp h
  obtain ⟨data, _, himg⟩ := Option.map_eq_some'.mp hmap
  refine ⟨idx, ?_, ?_⟩
  · exact List.mem_range.mp (List.mem_of_mem_filter hidx)
  · rw [← himg]

theorem filterMap_render_names (f : ℕ → Option (List ℕ)) (id ext : String)
    (l : List ℕ) (hall : ∀ idx ∈ l, (f idx).isSome = true) :
    (l.filterMap fun idx => (f idx).map fun data =>
        PdfImage.mk (id ++ "-" ++ toString idx ++ "." ++ ext) data).map PdfImage.name =
      l.map fun idx => id ++ "-" ++ toString idx ++ "." ++ ext := by
  induction l with
  | nil => rfl
  | cons a rest ih =>
    obtain ⟨d, hd⟩ := Option.isSome_iff_exists.mp (hall a (by simp))
    simp [List.filterMap_cons, hd, ih fun idx hidx => hall idx (by simp [hidx])]

theorem renderPages_none_names
    (renderEncode : PdfRenderConfig → ImageFormat → ℕ → Option (List ℕ))
    (cfg : PdfRenderConfig) (fmt : ImageFormat) (id ext : String) (total : ℕ)
    (hre : ∀ idx, (renderEncode cfg fmt idx).isSome = true) :
    (renderPages renderEncode cfg fmt id ext total none).map PdfImage.name =
      (List.range total).map fun idx => id ++ "-" ++ toString idx ++ "." ++ ext := by
  unfold renderPages
  rw [show ((List.range total).filter fun idx =>
      match (none : Option PageSelection) with
      | some ps => decide (idx ∈ ps)
      | none => true) = List.range total from List.filter_true _]
  exact filterMap_render_names _ id ext _ fun idx _ => hre idx

theorem renderPages_all_fail
    (renderEncode : PdfRenderConfig → ImageFormat → ℕ → Option (List ℕ))
    (cfg : PdfRenderConfig) (fmt : ImageFormat) (id ext : String) (total : ℕ)
    (psel : Option PageSelection)
    (hre : ∀ idx, renderEncode cfg fmt idx = none) :
    renderPages renderEncode cfg fmt id ext total psel = [] := by
  unfold renderPages
  rw [List.filterMap_eq_nil]
  intro idx _
  rw [hre idx]
  rfl

/-! ## Upload and store lemmas -/

theorem Store.get_put_self (store : Store) (img : PdfImage) :
    Store.get (Store.put store img) img.name = some img.stream := by
  unfold Store.put Store.get
  simp

theorem Store.get_put_ne (store : Store) (img : PdfImage) (key : String)
    (h : key ≠ img.name) :
    Store.get (Store.put store img) key = Store.get store key := by
  unfold Store.put Store.get
  rw [List.find?_cons_of_neg _ (by simpa using fun hc => absurd hc.symm h)]
  congr 1
  induction store with
  | nil => rfl
  | cons kv rest ih =>
    by_cases hkv : kv.1 = img.name
    · rw [List.filter_cons_of_neg (by simp [hkv]),
        List.find?_cons_of_neg _ (by simp [hkv]; exact fun hc => h hc.symm), ih]
    · rw [List.filter_cons_of_pos (by simp [hkv])]
      by_cases hk : kv.1 = key
      · rw [List.find?_cons_of_pos _ (by simp [hk]),
          List.find?_cons_of_pos _ (by simp [hk])]
      · rw [List.find?_cons_of_neg _ (by simp [hk]),
          List.find?_cons_of_neg _ (by simp [hk]), ih]

theorem uploadAll_results (fault : String → Bool) (images : List PdfImage) :
    ∀ store : Store, (uploadAll fault store images).2 =
      images.map fun img =>
        if fault img.name then .error (.S3 img.name) else .ok img.name := by
  induction images with
  | nil => intro store; rfl
  | cons img rest ih =>
    intro store
    unfold uploadAll put_image
    by_cases hf : fault img.name <;> simp [hf, ih]

theorem uploadAll_get_of_not_mem (fault : String → Bool) (images : List PdfImage) :
    ∀ (store : Store) (key : String), key ∉ images.map PdfImage.name →
      Store.get (uploadAll fault store images).1 key = Store.get store key := by
  induction images with
  | nil => intro store key _; rfl
  | cons img rest ih =>
    intro store key hkey
    simp only [List.map_cons, List.mem_cons, not_or] at hkey
    obtain ⟨hk1, hk2⟩ := hkey
    unfold uploadAll put_image
    by_cases hf : fault img.name
    · simpa [hf] using ih store key hk2
    · simpa [hf] using (ih (Store.put store img) key hk2).trans
        (Store.get_put_ne store img key hk1)

theorem uploadAll_persist (fault : String → Bool) (images : List PdfImage) :
    ∀ (store : Store) (img : PdfImage), img ∈ images → fault img.name = false →
      (images.map PdfImage.name).Nodup →
      Store.get (uploadAll fault store images).1 img.name = some img.stream := by
  induction images with
  | nil =>
    intro _ _ h
    cases h
  | cons first rest ih =>
    intro store img hmem hfault hnodup
    simp only [List.map_cons, List.nodup_cons] at hnodup
    obtain ⟨hnotin, hnodup2⟩ := hnodup
    rcases List.mem_cons.mp hmem with heq | hmem2
    · subst heq
      unfold uploadAll put_image
      rw [hfault]
      simpa using (uploadAll_get_of_not_mem fault rest (Store.put store img)
        img.name hnotin).trans (Store.get_put_self store img)
    · unfold uploadAll put_image
      by_cases hf : fault first.name <;>
        simpa [hf] using ih _ img hmem2 hfault hnodup2

/-! ## Collection and completion-order lemmas -/

theorem collectResults_map_ok (l : List String) :
    collectResults (l.map .ok) = .ok l := by
  induction l with
  | nil => rfl
  | cons k rest ih => simp [collectResults, ih]

theorem collectResults_error_mem {l : List (Except AppError String)} {e : AppError}
    (h : collectResults l = .error e) : Except.error e ∈ l := by
  induction l with
  | nil => cases h
  | cons x rest ih =>
    cases x with
    | error e2 =>
      cases h
      exact List.mem_cons_self _ _
    | ok k =>
      unfold collectResults at h
      cases hrest : collectResults rest with
      | error e2 =>
        rw [hrest] at h
        cases h
        exact List.mem_cons_of_mem _ (ih hrest)
      | ok ks =>
        rw [hrest] at h
        cases h

theorem collectResults_error_exists {l : List (Except AppError String)}
    {e0 : AppError} (hmem : Except.error e0 ∈ l) :
    ∃ e, collectResults l = .error e := by
  induction l with
  | nil => cases hmem
  | cons x rest ih =>
    cases x with
    | error e2 => exact ⟨e2, rfl⟩
    | ok k =>
      rcases List.mem_cons.mp hmem with h | h
      · cases h
      · obtain ⟨e, he⟩ := ih h
        exact ⟨e, by simp [collectResults, he]⟩

theorem range_filterMap_get {α : Type} (l : List α) :
    (List.range l.length).filterMap l.get? = l := by
  induction l with
  | nil => rfl
  | cons a rest ih =>
    rw [List.length_cons, List.range_succ_eq_map, List.filterMap_cons]
    simp only [List.get?_cons_zero, List.filterMap_map, Function.comp_def,
      List.get?_cons_succ]
    rw [ih]

theorem completionReorder_perm {α : Type} (order : List ℕ) (l : List α)
    (h : order.Perm (List.range l.length)) :
    (completionReorder order l).Perm l := by
  unfold completionReorder
  have hp := h.filterMap fun i => l.get? i
  rwa [range_filterMap_get] at hp

theorem completionReorder_map {α β : Type} (f : α → β) (order : List ℕ)
    (l : List α) :
    completionReorder order (l.map f) = (completionReorder order l).map f := by
  unfold completionReorder
  rw [List.map_filterMap]
  congr 1
  funext i
  rw [List.get?_map]

theorem completionReorder_mem {α : Type} {order : List ℕ} {l : List α} {x : α}
    (h : x ∈ completionReorder order l) : x ∈ l := by
  unfold completionReorder at h
  obtain ⟨i, _, hget⟩ := List.mem_filterMap.mp h
  exact List.get?_mem hget

/-! ## First-hyphen splitting, parser totality, gate lemmas -/

theorem span_ne_dash (lb : List Char) :
    ∀ la : List Char, (∀ c ∈ la, c ≠ '-') →
      (la ++ '-' :: lb).span (fun c => c ≠ '-') = (la, '-' :: lb) := by
  intro la
  induction la with
  | nil =>
    intro _
    rw [List.nil_append, List.span_eq_take_drop]
    simp
  | cons c rest ih =>
    intro hall
    have hc : c ≠ '-' := hall c (List.mem_cons_self c rest)
    have hrest := ih fun x hx => hall x (List.mem_cons_of_mem c hx)
    rw [List.span_eq_take_drop] at hrest ⊢
    rw [Prod.mk.injEq] at hrest
    obtain ⟨h1, h2⟩ := hrest
    rw [List.cons_append, List.takeWhile_cons, List.dropWhile_cons,
      if_pos (show decide (c ≠ '-') = true by simp [hc]),
      if_pos (show decide (c ≠ '-') = true by simp [hc]), h1, h2]

theorem splitOnceDash_append (a b : String) (h : '-' ∉ a.data) :
    splitOnceDash (a ++ "-" ++ b) = some (a, b) := by
  obtain ⟨la⟩ := a
  obtain ⟨lb⟩ := b
  unfold splitOnceDash
  have hdata : (String.mk la ++ "-" ++ String.mk lb).data = la ++ '-' :: lb := by
    simp [String.data_append]
  rw [hdata, span_ne_dash lb la fun c hc hceq => h (hceq ▸ hc)]

theorem from_str_ok_or_invalid (input : String) :
    (∃ s, PageSelection.from_str input = .ok s) ∨
      (∃ m, PageSelection.from_str input = .error (.InvalidPageRange m)) := by
  cases h : PageSelection.from_str input with
  | ok s => exact Or.inl ⟨s, rfl⟩
  | error e =>
    obtain ⟨m, hm⟩ := from_str_error h
    subst hm
    exact Or.inr ⟨m, rfl⟩

theorem handleAfterGate_ne_unauthorized
    (hashHex : List ℕ → String) (load : List ℕ → Option ℕ)
    (renderEncode : PdfRenderConfig → ImageFormat → ℕ → Option (List ℕ))
    (fault : String → Bool) (order : List ℕ) (store : Store)
    (query : UploadQuery) (field : Option (List ℕ)) :
    (handleAfterGate hashHex load renderEncode fault order store query field).2 ≠
      .error .Unauthorized := by
  unfold handleAfterGate
  cases field with
  | none => simp
  | some data =>
    cases hp : process_pdf hashHex load renderEncode data query with
    | error e =>
      simp only [hp]
      intro hcontra
      have he : e = .Unauthorized := by simpa using hcontra
      subst he
      rcases process_pdf_error_shape hp with h2 | ⟨m, h2⟩ | ⟨m, h2⟩ <;> cases h2
    | ok images =>
      simp only [hp]
      cases hc : collectResults
          (completionReorder order (uploadAll fault store images).2) with
      | error e =>
        simp only [hc]
        intro hcontra
        have he : e = .Unauthorized := by simpa using hcontra
        subst he
        have hmem2 := completionReorder_mem (collectResults_error_mem hc)
        rw [uploadAll_results] at hmem2
        obtain ⟨img, _, himg⟩ := List.mem_map.mp hmem2
        by_cases hf : fault img.name
        · rw [if_pos hf] at himg
          cases himg
        · rw [if_neg hf] at himg
          cases himg
      | ok keys => simp [hc]

theorem completionReorder_nil {α : Type} (order : List ℕ) :
    completionReorder order ([] : List α) = [] := by
  unfold completionReorder
  rw [List.filterMap_eq_nil]
  intro i _
  rfl

theorem transposeParse_none {q : UploadQuery} (hpages : q.pages = none) :
    transposeParse (q.pages.map PageSelection.from_str) = .ok none := by
  rw [hpages]
  rfl

theorem transposeParse_some {q : UploadQuery} {expr : String}
    {sel : PageSelection} (hpages : q.pages = some expr)
    (hsel : PageSelection.from_str expr = .ok sel) :
    transposeParse (q.pages.map PageSelection.from_str) = .ok (some sel) := by
  rw [hpages, Option.map_some', hsel]
  rfl

theorem process_pdf_invalid_scale (hashHex : List ℕ → String)
    (load : List ℕ → Option ℕ)
    (renderEncode : PdfRenderConfig → ImageFormat → ℕ → Option (List ℕ))
    (bytes : List ℕ) (q : UploadQuery) (total : ℕ) (s : ℚ)
    (hload : load bytes = some total) (hpages : q.pages = none)
    (hscale : q.scale = some s) (hout : ¬ (mkRat 1 10 ≤ s ∧ s ≤ 10)) :
    process_pdf hashHex load renderEncode bytes q =
      .error (.InvalidScale "scale must be between 0.1 and 10.0") := by
  have hsg : scaleGuard q.scale =
      .error (.InvalidScale "scale must be between 0.1 and 10.0") := by
    rw [hscale]
    exact (scaleGuard_some_error_iff s).mpr hout
  unfold process_pdf
  simp only [hload, transposeParse_none hpages, hsg]

theorem process_pdf_validate_error (hashHex : List ℕ → String)
    (load : List ℕ → Option ℕ)
    (renderEncode : PdfRenderConfig → ImageFormat → ℕ → Option (List ℕ))
    (bytes : List ℕ) (q : UploadQuery) (total : ℕ) (sel : PageSelection)
    (e : AppError) (hload : load bytes = some total)
    (hparse : transposeParse (q.pages.map PageSelection.from_str) =
      .ok (some sel))
    (hval : sel.validate total = .error e) :
    process_pdf hashHex load renderEncode bytes q = .error e := by
  unfold process_pdf
  simp only [hload, hparse, hval]

theorem process_pdf_load_failure (hashHex : List ℕ → String)
    (load : List ℕ → Option ℕ)
    (renderEncode : PdfRenderConfig → ImageFormat → ℕ → Option (List ℕ))
    (bytes : List ℕ) (q : UploadQuery) (hload : load bytes = none) :
    process_pdf hashHex load renderEncode bytes q = .error .Pdfium := by
  unfold process_pdf
  rw [hload]

/-! ## Claim theorems -/

/-- C1: every image produced by `process_pdf` has object key
`"{fingerprint}-{pageIndex}.{extension}"`, where the fingerprint `hashHex
bytes` is computed from the raw uploaded bytes alone and the extension is the
fixed `OutputFormat.extension` of the requested format; consequently a second
run on byte-identical content with identical format, page selection and scale
— whatever token it carries — produces the identical image list. -/
theorem c1_content_addressed_keys (hashHex : List ℕ → String)
    (load : List ℕ → Option ℕ)
    (renderEncode : PdfRenderConfig → ImageFormat → ℕ → Option (List ℕ))
    (bytes : List ℕ) (q : UploadQuery) (imgs : List PdfImage)
    (h : process_pdf hashHex load renderEncode bytes q = .ok imgs) :
    (∀ img ∈ imgs, ∃ idx : ℕ, img.name =
      hashHex bytes ++ "-" ++ toString idx ++ "." ++ q.format.extension) ∧
    (∀ q2 : UploadQuery, q2.format = q.format → q2.pages = q.pages →
      q2.scale = q.scale →
      process_pdf hashHex load renderEncode bytes q2 = .ok imgs) := by
  constructor
  · intro img hmem
    obtain ⟨total, psel, _, _, himgs⟩ := process_pdf_ok_inv h
    subst himgs
    obtain ⟨idx, _, hname⟩ := renderPages_name_mem hmem
    exact ⟨idx, hname⟩
  · intro q2 hf hp hs
    obtain ⟨f, t, p, sc⟩ := q
    obtain ⟨f2, t2, p2, sc2⟩ := q2
    cases hf
    cases hp
    cases hs
    exact h

/-- C1 witness: a 1-page document rendered as PNG under the constant-`"h"`
hash yields the single key `h-0.png`, and any query agreeing on format, pages
and scale reproduces the same image list. -/
theorem c1_content_addressed_keys_witness :
    (∀ img ∈ [PdfImage.mk "h-0.png" []], ∃ idx : ℕ, img.name =
      "h" ++ "-" ++ toString idx ++ "." ++ "png") ∧
    (∀ q2 : UploadQuery, q2.format = .Png → q2.pages = none →
      q2.scale = none →
      process_pdf (fun _ => "h") (fun _ => some 1) (fun _ _ _ => some []) []
        q2 = .ok [PdfImage.mk "h-0.png" []]) :=
  c1_content_addressed_keys (fun _ => "h") (fun _ => some 1)
    (fun _ _ _ => some []) [] ⟨.Png, none, none, none⟩
    [PdfImage.mk "h-0.png" []] (by decide)

/-- C2 counterexample: the token `"0"` is a zero value, and the resulting
`InvalidPageRange` message is the fixed string
`"page numbers must be 1 or greater"`, which does not name the offending
token (the character `0` does not even occur in it). -/
theorem c2_zero_token_counterexample :
    PageSelection.from_str "0" =
      .error (.InvalidPageRange "page numbers must be 1 or greater") ∧
    '0' ∉ "page numbers must be 1 or greater".data := by
  refine ⟨by decide, by decide⟩

/-- C2 (amended): the pages parser follows the §4.2 grammar — split on
commas, trim, skip empties, `N ≥ 1` yields page `N-1`, `A-B` with
`1 ≤ A ≤ B` yields pages `A-1` through `B-1` inclusive, contributions are
unioned, and an empty union fails with `"no valid pages specified"` — with
the error messages the code emits: a non-numeric token or range segment is
named in its message, while a zero value produces the fixed message
`"page numbers must be 1 or greater"` and `A > B` a message naming both
endpoints.  Stated as: the source parser equals the grammar-side parser
`specPageParse` on every input. -/
theorem c2_pages_grammar (input : String) :
    PageSelection.from_str input = specPageParse input := by
  unfold PageSelection.from_str specPageParse specTokens
  rw [parseParts_eq]
  cases hm : (((((splitComma input.data).map fun l => (⟨l⟩ : String))).map
      rustTrim).filter fun t => !(t == "")).mapM specTokenVal with
  | error e => rfl
  | ok sets => rfl

/-- C4 counterexample: with bytes that do not load as a document and the
out-of-range scale 15, `process_pdf` fails with the pdfium load error, not
with `InvalidScale` — the scale check does not precede document loading. -/
theorem c4_unloadable_scale_counterexample :
    process_pdf (fun _ => "h") (fun _ => none) (fun _ _ _ => some []) []
      ⟨.Png, none, none, some 15⟩ = .error .Pdfium ∧
    AppError.Pdfium ≠
      AppError.InvalidScale "scale must be between 0.1 and 10.0" := by
  refine ⟨by decide, by decide⟩

/-- C4 (amended): scale validation runs inside `process_pdf` after the
document is loaded (and after the page expression is handled): when the
document loads and an out-of-range scale was supplied the request fails with
`InvalidScale`, but when the bytes fail to load the request fails with the
document-load error regardless of the scale. -/
theorem c4_scale_checked_after_load (hashHex : List ℕ → String)
    (load : List ℕ → Option ℕ)
    (renderEncode : PdfRenderConfig → ImageFormat → ℕ → Option (List ℕ))
    (bytes : List ℕ) (q : UploadQuery) (total : ℕ) (s : ℚ)
    (hload : load bytes = some total) (hpages : q.pages = none)
    (hscale : q.scale = some s) (hout : ¬ (mkRat 1 10 ≤ s ∧ s ≤ 10)) :
    process_pdf hashHex load renderEncode bytes q =
      .error (.InvalidScale "scale must be between 0.1 and 10.0") ∧
    ∀ load2 : List ℕ → Option ℕ, load2 bytes = none →
      process_pdf hashHex load2 renderEncode bytes q = .error .Pdfium := by
  constructor
  · exact process_pdf_invalid_scale hashHex load renderEncode bytes q total s
      hload hpages hscale hout
  · intro load2 hl2
    exact process_pdf_load_failure hashHex load2 renderEncode bytes q hl2

/-- C4 witness: at scale 15 on a loadable 1-page document the request fails
with `InvalidScale`, while the same request on unloadable bytes fails with
the load error. -/
theorem c4_scale_checked_after_load_witness :
    process_pdf (fun _ => "h") (fun _ => some 1) (fun _ _ _ => some []) []
      ⟨.Png, none, none, some 15⟩ =
      .error (.InvalidScale "scale must be between 0.1 and 10.0") ∧
    ∀ load2 : List ℕ → Option ℕ, load2 [] = none →
      process_pdf (fun _ => "h") load2 (fun _ _ _ => some []) []
        ⟨.Png, none, none, some 15⟩ = .error .Pdfium :=
  c4_scale_checked_after_load (fun _ => "h") (fun _ => some 1)
    (fun _ _ _ => some []) [] ⟨.Png, none, none, some 15⟩ 1 15 rfl rfl rfl
    (by decide)

/-- C5: with a loadable document and no pages parameter, a supplied scale is
rejected (`InvalidScale`) exactly when it lies outside the inclusive interval
[0.1, 10.0]; an absent scale renders with the library's native
`PdfRenderConfig.new` configuration. -/
theorem c5_scale_range (hashHex : List ℕ → String) (load : List ℕ → Option ℕ)
    (renderEncode : PdfRenderConfig → ImageFormat → ℕ → Option (List ℕ))
    (bytes : List ℕ) (q : UploadQuery) (total : ℕ)
    (hload : load bytes = some total) (hpages : q.pages = none) :
    (∀ s, q.scale = some s →
      ((∃ m, process_pdf hashHex load renderEncode bytes q =
        .error (.InvalidScale m)) ↔ ¬ (mkRat 1 10 ≤ s ∧ s ≤ 10))) ∧
    (q.scale = none →
      process_pdf hashHex load renderEncode bytes q =
        .ok (renderPages renderEncode PdfRenderConfig.new
          q.format.as_image_format (hashHex bytes) q.format.extension total
          none)) := by
  constructor
  · intro s hs
    constructor
    · rintro ⟨m, hm⟩
      intro hin
      have hok : process_pdf hashHex load renderEncode bytes q =
          .ok (renderPages renderEncode (renderConfigOf q.scale)
            q.format.as_image_format (hashHex bytes) q.format.extension total
            none) :=
        process_pdf_eq_ok hashHex load renderEncode bytes q total none hload
          (transposeParse_none hpages) rfl
          (by rw [hs]; exact (scaleGuard_some_ok_iff s).mpr hin)
      rw [hok] at hm
      cases hm
    · intro hout
      exact ⟨"scale must be between 0.1 and 10.0",
        process_pdf_invalid_scale hashHex load renderEncode bytes q total s
          hload hpages hs hout⟩
  · intro hnone
    have hok := process_pdf_eq_ok hashHex load renderEncode bytes q total none
      hload (transposeParse_none hpages) rfl (by rw [hnone]; rfl)
    rwa [hnone] at hok

/-- C5 witness: on a loadable 1-page document, scale 15 is rejected exactly
because it is out of range, and scale 1/10 (the lower boundary) is not
rejected. -/
theorem c5_scale_range_witness :
    ((∃ m, process_pdf (fun _ => "h") (fun _ => some 1) (fun _ _ _ => some [])
        [] ⟨.Png, none, none, some 15⟩ = .error (.InvalidScale m)) ↔
      ¬ (mkRat 1 10 ≤ (15 : ℚ) ∧ (15 : ℚ) ≤ 10)) ∧
    ¬ (∃ m, process_pdf (fun _ => "h") (fun _ => some 1)
        (fun _ _ _ => some []) [] ⟨.Png, none, none, some (mkRat 1 10)⟩ =
        .error (.InvalidScale m)) := by
  constructor
  · exact (c5_scale_range (fun _ => "h") (fun _ => some 1)
      (fun _ _ _ => some []) [] ⟨.Png, none, none, some 15⟩ 1 rfl rfl).1 15 rfl
  · intro hex
    have hiff := (c5_scale_range (fun _ => "h") (fun _ => some 1)
      (fun _ _ _ => some []) [] ⟨.Png, none, none, some (mkRat 1 10)⟩ 1 rfl
      rfl).1 (mkRat 1 10) rfl
    exact absurd (hiff.mp hex) (by decide)

/-- C10: the pages parser is total over all input strings — its result is
always either a parsed selection or an `InvalidPageRange` error, never any
other error — and a range token is split at its first hyphen only:
`"1-2-3"` fails naming `"2-3"` as an invalid number, and `"-3"` fails
because its empty start segment does not parse as a number. -/
theorem c10_split_first_hyphen_total :
    (∀ a b : String, '-' ∉ a.data →
      splitOnceDash (a ++ "-" ++ b) = some (a, b)) ∧
    (∀ input : String,
      (∃ s, PageSelection.from_str input = .ok s) ∨
        (∃ m, PageSelection.from_str input = .error (.InvalidPageRange m))) ∧
    PageSelection.from_str "1-2-3" =
      .error (.InvalidPageRange "invalid number: 2-3") ∧
    PageSelection.from_str "-3" =
      .error (.InvalidPageRange "invalid number: ") :=
  ⟨splitOnceDash_append, from_str_ok_or_invalid, by decide, by decide⟩

/-- C10 witness: `"12-34"` is split at its hyphen into `"12"` and `"34"`. -/
theorem c10_split_first_hyphen_total_witness :
    splitOnceDash ("12" ++ "-" ++ "34") = some ("12", "34") :=
  c10_split_first_hyphen_total.1 "12" "34" (by decide)

/-- C3 counterexample: a 2-page request in which every render and every
upload succeeds, under the admissible upload completion order `[1, 0]`,
produces the success list `["h-1.png", "h-0.png"]` — not the ascending
page-index order `["h-0.png", "h-1.png"]` the claim requires. -/
theorem c3_ascending_counterexample :
    [1, 0].Perm (List.range 2) ∧
    (handle_pdf_upload (fun _ => "h") (fun _ => some 2) (fun _ _ _ => some [])
        (fun _ => false) [1, 0] none [] ⟨.Png, none, none, none⟩
        (some [])).2 = .ok ⟨true, ["h-1.png", "h-0.png"]⟩ ∧
    ["h-1.png", "h-0.png"] ≠ ["h-0.png", "h-1.png"] := by
  refine ⟨by decide, by decide, by decide⟩

/-- C3 (amended): for a P-page document with no pages parameter, when every
render and upload succeeds the success response holds exactly the P keys,
one per page — the rendered (and uploaded) sequence is the ascending list
`(List.range P).map key` — but the response lists them in the upload
completion order: a permutation of the ascending key list, not necessarily
ascending. -/
theorem c3_success_key_list (hashHex : List ℕ → String)
    (renderEncode : PdfRenderConfig → ImageFormat → ℕ → Option (List ℕ))
    (fault : String → Bool) (order : List ℕ) (store : Store)
    (bytes : List ℕ) (P : ℕ) (q : UploadQuery)
    (hpages : q.pages = none) (hscale : q.scale = none)
    (hre : ∀ cfg fmt idx, (renderEncode cfg fmt idx).isSome = true)
    (hfault : ∀ k, fault k = false)
    (horder : order.Perm (List.range P)) :
    ∃ keys : List String,
      keys = (List.range P).map (fun idx =>
        hashHex bytes ++ "-" ++ toString idx ++ "." ++ q.format.extension) ∧
      keys.length = P ∧
      (handle_pdf_upload hashHex (fun _ => some P) renderEncode fault order
          none store q (some bytes)).2 =
        .ok ⟨true, completionReorder order keys⟩ ∧
      (completionReorder order keys).Perm keys := by
  refine ⟨(List.range P).map (fun idx =>
    hashHex bytes ++ "-" ++ toString idx ++ "." ++ q.format.extension),
    rfl, by simp, ?_, ?_⟩
  · have hok := process_pdf_eq_ok hashHex (fun _ => some P) renderEncode bytes
      q P none rfl (transposeParse_none hpages) rfl (by rw [hscale]; rfl)
    have hnames : (renderPages renderEncode (renderConfigOf q.scale)
        q.format.as_image_format (hashHex bytes) q.format.extension P
        none).map PdfImage.name = (List.range P).map (fun idx =>
          hashHex bytes ++ "-" ++ toString idx ++ "." ++ q.format.extension) :=
      renderPages_none_names renderEncode _ _ _ _ P fun idx => hre _ _ idx
    have hres : (uploadAll fault store (renderPages renderEncode
        (renderConfigOf q.scale) q.format.as_image_format (hashHex bytes)
        q.format.extension P none)).2 =
        ((renderPages renderEncode (renderConfigOf q.scale)
          q.format.as_image_format (hashHex bytes) q.format.extension P
          none).map PdfImage.name).map Except.ok := by
      rw [uploadAll_results, List.map_map]
      apply List.map_congr_left
      intro img _
      simp [hfault img.name]
    unfold handle_pdf_upload handleAfterGate
    simp only [hok, hres, completionReorder_map, collectResults_map_ok, hnames]
  · refine completionReorder_perm order _ ?_
    simpa using horder

/-- C3 witness: with two pages, completion order `[1, 0]`, constant hash
`"h"` and all operations succeeding, the response is the reordered key
list, a permutation of the ascending one. -/
theorem c3_success_key_list_witness :
    ∃ keys : List String,
      keys = (List.range 2).map (fun idx =>
        "h" ++ "-" ++ toString idx ++ "." ++ "png") ∧
      keys.length = 2 ∧
      (handle_pdf_upload (fun _ => "h") (fun _ => some 2)
          (fun _ _ _ => some []) (fun _ => false) [1, 0] none []
          ⟨.Png, none, none, none⟩ (some [])).2 =
        .ok ⟨true, completionReorder [1, 0] keys⟩ ∧
      (completionReorder [1, 0] keys).Perm keys :=
  c3_success_key_list (fun _ => "h") (fun _ _ _ => some []) (fun _ => false)
    [1, 0] [] [] 2 ⟨.Png, none, none, none⟩ rfl rfl (fun _ _ _ => rfl)
    (fun _ => rfl) (by decide)

/-- C6: `PageSelection.validate` fails (with `InvalidPageRange`) exactly
when some selected zero-indexed page is `≥ totalPages`; inside the pipeline,
once the document has loaded and the expression has parsed, the request
fails with `InvalidPageRange` exactly when the selection is out of bounds,
and an in-bounds selection passes through to rendering unchanged; when the
document does not load, the pipeline fails with the load error before any
bounds check, whatever the pages parameter. -/
theorem c6_bounds_checked_after_load :
    (∀ (s : PageSelection) (total : ℕ),
      ((∃ m, PageSelection.validate s total = .error (.InvalidPageRange m)) ↔
        ∃ p ∈ s, total ≤ p) ∧
      ((∀ p ∈ s, p < total) → PageSelection.validate s total = .ok ())) ∧
    (∀ (hashHex : List ℕ → String) (load : List ℕ → Option ℕ)
        (renderEncode : PdfRenderConfig → ImageFormat → ℕ → Option (List ℕ))
        (bytes : List ℕ) (q : UploadQuery) (total : ℕ) (expr : String)
        (sel : PageSelection),
      load bytes = some total → q.pages = some expr → q.scale = none →
      PageSelection.from_str expr = .ok sel →
      (((∃ m, process_pdf hashHex load renderEncode bytes q =
          .error (.InvalidPageRange m)) ↔ ∃ p ∈ sel, total ≤ p) ∧
        ((∀ p ∈ sel, p < total) →
          process_pdf hashHex load renderEncode bytes q =
            .ok (renderPages renderEncode PdfRenderConfig.new
              q.format.as_image_format (hashHex bytes) q.format.extension
              total (some sel))))) ∧
    (∀ (hashHex : List ℕ → String) (load2 : List ℕ → Option ℕ)
        (renderEncode : PdfRenderConfig → ImageFormat → ℕ → Option (List ℕ))
        (bytes : List ℕ) (q : UploadQuery),
      load2 bytes = none →
      process_pdf hashHex load2 renderEncode bytes q = .error .Pdfium) := by
  refine ⟨?_, ?_, ?_⟩
  · intro s total
    exact ⟨validate_error_iff s total, fun h => (validate_ok_iff s total).mpr h⟩
  · intro hashHex load renderEncode bytes q total expr sel hload hpages
      hscaleN hsel
    have hparse := transposeParse_some hpages hsel
    constructor
    · constructor
      · rintro ⟨m, hm⟩
        by_contra hno
        push_neg at hno
        have hok := process_pdf_eq_ok hashHex load renderEncode bytes q total
          (some sel) hload hparse
          ((validate_ok_iff sel total).mpr fun p hp => hno p hp)
          (by rw [hscaleN]; rfl)
        rw [hok] at hm
        cases hm
      · rintro ⟨p, hp, hple⟩
        obtain ⟨m, hval⟩ := (validate_error_iff sel total).mpr ⟨p, hp, hple⟩
        exact ⟨m, process_pdf_validate_error hashHex load renderEncode bytes q
          total sel _ hload hparse hval⟩
    · intro hall
      have hok := process_pdf_eq_ok hashHex load renderEncode bytes q total
        (some sel) hload hparse ((validate_ok_iff sel total).mpr hall)
        (by rw [hscaleN]; rfl)
      rw [hscaleN] at hok
      exact hok
  · intro hashHex load2 renderEncode bytes q hl2
    exact process_pdf_load_failure hashHex load2 renderEncode bytes q hl2

/-- C6 witness: `pages="9"` parses to `{8}`, and on a 3-page document the
request fails with `InvalidPageRange` exactly because 8 ≥ 3. -/
theorem c6_bounds_checked_after_load_witness :
    (∃ m, process_pdf (fun _ => "h") (fun _ => some 3) (fun _ _ _ => some [])
      [] ⟨.Png, none, some "9", none⟩ = .error (.InvalidPageRange m)) ↔
      ∃ p ∈ ({8} : PageSelection), 3 ≤ p :=
  (c6_bounds_checked_after_load.2.1 (fun _ => "h") (fun _ => some 3)
    (fun _ _ _ => some []) [] ⟨.Png, none, some "9", none⟩ 3 "9" {8} rfl rfl
    rfl (by decide)).1

/-- C7: a page whose render or encode fails is silently omitted — the
rendered list is exactly the `filterMap` of the per-page render outcomes,
with no error raised — and when every page fails the request still succeeds,
propagating an empty upload set and an empty success list (with the store
untouched). -/
theorem c7_best_effort_render (hashHex : List ℕ → String)
    (load : List ℕ → Option ℕ)
    (renderEncode : PdfRenderConfig → ImageFormat → ℕ → Option (List ℕ))
    (bytes : List ℕ) (q : UploadQuery) (total : ℕ)
    (hload : load bytes = some total) (hpages : q.pages = none)
    (hscale : q.scale = none) :
    (process_pdf hashHex load renderEncode bytes q =
      .ok ((List.range total).filterMap fun idx =>
        (renderEncode PdfRenderConfig.new q.format.as_image_format idx).map
          fun data => PdfImage.mk
            (hashHex bytes ++ "-" ++ toString idx ++ "." ++
              q.format.extension) data)) ∧
    ((∀ cfg fmt idx, renderEncode cfg fmt idx = none) →
      ∀ (fault : String → Bool) (order : List ℕ) (store : Store),
        handle_pdf_upload hashHex load renderEncode fault order none store q
          (some bytes) = (store, .ok ⟨true, []⟩)) := by
  have hok := process_pdf_eq_ok hashHex load renderEncode bytes q total none
    hload (transposeParse_none hpages) rfl (by rw [hscale]; rfl)
  rw [hscale] at hok
  constructor
  · rw [hok]
    congr 1
    unfold renderPages
    rw [show ((List.range total).filter fun idx =>
        match (none : Option PageSelection) with
        | some ps => decide (idx ∈ ps)
        | none => true) = List.range total from List.filter_true _]
    rfl
  · intro hfail fault order store
    have hempty : renderPages renderEncode (renderConfigOf none)
        q.format.as_image_format (hashHex bytes) q.format.extension total
        none = [] :=
      renderPages_all_fail _ _ _ _ _ _ _ fun idx => hfail _ _ idx
    unfold handle_pdf_upload handleAfterGate
    simp only [hok, hempty, uploadAll, completionReorder_nil, collectResults]

/-- C7 witness: with every render failing on a 1-page document, the request
returns an empty success list and leaves the store unchanged. -/
theorem c7_best_effort_render_witness :
    handle_pdf_upload (fun _ => "h") (fun _ => some 1) (fun _ _ _ => none)
      (fun _ => false) [0] none [] ⟨.Png, none, none, none⟩ (some []) =
      ([], .ok ⟨true, []⟩) :=
  (c7_best_effort_render (fun _ => "h") (fun _ => some 1) (fun _ _ _ => none)
    [] ⟨.Png, none, none, none⟩ 1 rfl rfl rfl).2 (fun _ _ _ => rfl)
    (fun _ => false) [0] []

/-- C8: the upload stage produces one outcome per rendered image and every
task runs to completion; if every upload succeeds, collecting the outcomes
(in any completion order) yields the list of all object keys, a permutation
of the image names; if some upload fails, the whole collection fails with a
single representative `S3` storage error (status 500) naming a faulted key,
while every image whose own upload succeeded remains persisted in the store
— no compensating deletion. -/
theorem c8_upload_fanout (fault : String → Bool) (store : Store)
    (images : List PdfImage) :
    ((uploadAll fault store images).2.length = images.length) ∧
    ((∀ img ∈ images, fault img.name = false) →
      ∀ order : List ℕ, order.Perm (List.range images.length) →
        collectResults (completionReorder order
            (uploadAll fault store images).2) =
          .ok (completionReorder order (images.map PdfImage.name)) ∧
        (completionReorder order (images.map PdfImage.name)).Perm
          (images.map PdfImage.name)) ∧
    ((∃ img ∈ images, fault img.name = true) →
      ∀ order : List ℕ, order.Perm (List.range images.length) →
        ∃ key, collectResults (completionReorder order
            (uploadAll fault store images).2) = .error (.S3 key) ∧
          key ∈ images.map PdfImage.name ∧ fault key = true ∧
          AppError.statusCode (.S3 key) = 500) ∧
    (∀ img ∈ images, fault img.name = false →
      (images.map PdfImage.name).Nodup →
      Store.get (uploadAll fault store images).1 img.name =
        some img.stream) := by
  refine ⟨?_, ?_, ?_, ?_⟩
  · rw [uploadAll_results]
    simp
  · intro hall order _
    have hres : (uploadAll fault store images).2 =
        (images.map PdfImage.name).map Except.ok := by
      rw [uploadAll_results, List.map_map]
      apply List.map_congr_left
      intro img hmem
      simp [hall img hmem]
    constructor
    · rw [hres, completionReorder_map, collectResults_map_ok]
    · rename_i horder
      refine completionReorder_perm order _ ?_
      simpa using horder
  · rintro ⟨img0, hmem0, hf0⟩ order horder
    have hlen : (uploadAll fault store images).2.length = images.length := by
      rw [uploadAll_results]
      simp
    have hperm := completionReorder_perm order (uploadAll fault store images).2
      (by rw [hlen]; exact horder)
    have hmemErr : Except.error (AppError.S3 img0.name) ∈
        (uploadAll fault store images).2 := by
      rw [uploadAll_results]
      exact List.mem_map.mpr ⟨img0, hmem0, by simp [hf0]⟩
    obtain ⟨e, he⟩ := collectResults_error_exists (hperm.mem_iff.mpr hmemErr)
    have hmem3 := completionReorder_mem (collectResults_error_mem he)
    rw [uploadAll_results] at hmem3
    obtain ⟨img1, hmem1, himg1⟩ := List.mem_map.mp hmem3
    by_cases hf1 : fault img1.name
    · rw [if_pos hf1] at himg1
      cases himg1
      exact ⟨img1.name, he, List.mem_map_of_mem _ hmem1, hf1, rfl⟩
    · rw [if_neg hf1] at himg1
      cases himg1
  · intro img hmem hf hnodup
    exact uploadAll_persist fault images store img hmem hf hnodup

/-- C8 witness: of two images `a` and `b` with the store faulting exactly on
`b`, collection reports the `S3` error for `b` (status 500) while `a`
remains retrievable from the store. -/
theorem c8_upload_fanout_witness :
    (∃ key, collectResults (completionReorder [0, 1]
        (uploadAll (fun k => k == "b") []
          [PdfImage.mk "a" [], PdfImage.mk "b" []]).2) = .error (.S3 key) ∧
      key ∈ [PdfImage.mk "a" [], PdfImage.mk "b" []].map PdfImage.name ∧
      (fun k : String => k == "b") key = true ∧
      AppError.statusCode (.S3 key) = 500) ∧
    Store.get (uploadAll (fun k => k == "b") []
        [PdfImage.mk "a" [], PdfImage.mk "b" []]).1 "a" = some [] :=
  ⟨(c8_upload_fanout (fun k => k == "b") []
      [PdfImage.mk "a" [], PdfImage.mk "b" []]).2.2.1
      ⟨PdfImage.mk "b" [], by decide, by decide⟩ [0, 1] (by decide),
    (c8_upload_fanout (fun k => k == "b") []
      [PdfImage.mk "a" [], PdfImage.mk "b" []]).2.2.2
      (PdfImage.mk "a" []) (by decide) (by decide) (by decide)⟩

/-- C9: the access gate fails with `Unauthorized` (status 401) exactly when
a secret is configured and the request token does not equal it — and in that
case the handler returns `(store, Unauthorized)` whatever the multipart
field, document loader, renderer, store faults or completion order, i.e. no
field extraction or rendering work influences the outcome; when no secret is
configured or the token matches, the request never fails with
`Unauthorized`. -/
theorem c9_access_gate (secret : Option String) (q : UploadQuery)
    (store : Store) :
    ((∃ sec, secret = some sec ∧ q.token ≠ some sec) →
      ∀ (hashHex : List ℕ → String) (load : List ℕ → Option ℕ)
        (renderEncode : PdfRenderConfig → ImageFormat → ℕ → Option (List ℕ))
        (fault : String → Bool) (order : List ℕ) (field : Option (List ℕ)),
        handle_pdf_upload hashHex load renderEncode fault order secret store
          q field = (store, .error .Unauthorized)) ∧
    ((secret = none ∨ ∃ sec, secret = some sec ∧ q.token = some sec) →
      ∀ (hashHex : List ℕ → String) (load : List ℕ → Option ℕ)
        (renderEncode : PdfRenderConfig → ImageFormat → ℕ → Option (List ℕ))
        (fault : String → Bool) (order : List ℕ) (field : Option (List ℕ)),
        (handle_pdf_upload hashHex load renderEncode fault order secret store
          q field).2 ≠ .error .Unauthorized) ∧
    AppError.statusCode .Unauthorized = 401 := by
  refine ⟨?_, ?_, rfl⟩
  · rintro ⟨sec, rfl, htok⟩ hashHex load renderEncode fault order field
    unfold handle_pdf_upload
    cases ht : q.token with
    | none => rfl
    | some tk =>
      simp only [ht]
      rw [if_neg fun hc : tk = sec => htok (by rw [ht, hc])]
  · rintro (rfl | ⟨sec, rfl, htok⟩) hashHex load renderEncode fault order field
    · exact handleAfterGate_ne_unauthorized hashHex load renderEncode fault
        order store q field
    · unfold handle_pdf_upload
      simp only [htok, if_pos]
      exact handleAfterGate_ne_unauthorized hashHex load renderEncode fault
        order store q field

/-- C9 witness: with secret `"s"` and no token the request is rejected as
`Unauthorized` with the store untouched; with the matching token it is never
rejected as `Unauthorized`; and `Unauthorized` maps to status 401. -/
theorem c9_access_gate_witness :
    (handle_pdf_upload (fun _ => "h") (fun _ => some 1) (fun _ _ _ => some [])
        (fun _ => false) [0] (some "s") [] ⟨.Png, none, none, none⟩
        (some []) = ([], .error .Unauthorized)) ∧
    ((handle_pdf_upload (fun _ => "h") (fun _ => some 1)
        (fun _ _ _ => some []) (fun _ => false) [0] (some "s") []
        ⟨.Png, some "s", none, none⟩ (some [])).2 ≠ .error .Unauthorized) ∧
    AppError.statusCode .Unauthorized = 401 :=
  ⟨(c9_access_gate (some "s") ⟨.Png, none, none, none⟩ []).1
      ⟨"s", rfl, by decide⟩ (fun _ => "h") (fun _ => some 1)
      (fun _ _ _ => some []) (fun _ => false) [0] (some []),
    (c9_access_gate (some "s") ⟨.Png, some "s", none, none⟩ []).2.1
      (Or.inr ⟨"s", rfl, rfl⟩) (fun _ => "h") (fun _ => some 1)
      (fun _ _ _ => some []) (fun _ => false) [0] (some []),
    (c9_access_gate (some "s") ⟨.Png, none, none, none⟩ []).2.2⟩

end PdfImages
